import Mathlib

/-!
Shallow embedding of `src/backend/routers/announcements.py`: a CRUD router
for time-bounded announcements backed by a MongoDB collection.

Modelling choices:
  * The announcement collection is a `Store`: a list of documents plus a
    counter supplying fresh `_id` values (MongoDB ObjectIds are modelled as
    natural numbers; their 24-hex-digit string form is `toHex24`, and
    `bson.ObjectId(s)` validation of a path parameter is `parseObjectId`).
  * The teacher collection is a list of usernames (`find_one {_id: u}` is a
    membership lookup).
  * `HTTPException` is an `HTTPError` value; handlers that FastAPI would run
    return `Except HTTPError T`, and the mutating handlers additionally
    return the collection state after the request, mirroring that a raise
    aborts the handler with whatever writes had happened so far.
  * `datetime.date` is `Date`; `date.fromisoformat` is `parseIsoDate`
    (strict `YYYY-MM-DD` with calendar validation, the documented format),
    `date.isoformat` is `Date.isoformat`, and Python date comparison is
    `dateLt` (lexicographic on year, month, day).
  * MongoDB string comparison (`$gte`/`$lte` on ISO date strings) is the
    `String` linear order; `sort("expiration_date", 1)` is an insertion
    sort by that key; `{"start_date": None}` matches an absent field.
-/

namespace Announcements

/-- A calendar date as in Python `datetime.date`. -/
structure Date where
  year : Nat
  month : Nat
  day : Nat
deriving Repr, DecidableEq

/-- Gregorian leap-year rule used by `datetime.date` validity. -/
def isLeap (y : Nat) : Bool :=
  y % 4 == 0 && (y % 100 != 0 || y % 400 == 0)

/-- Number of days of month `m` of year `y`. -/
def daysInMonth (y m : Nat) : Nat :=
  if m = 2 then (if isLeap y then 29 else 28)
  else if m = 4 ∨ m = 6 ∨ m = 9 ∨ m = 11 then 30
  else 31

/-- Value of a decimal digit character, if it is one. -/
def digitVal? (c : Char) : Option Nat :=
  if 48 ≤ c.toNat ∧ c.toNat ≤ 57 then some (c.toNat - 48) else none

/-- Decimal digit character of a value below ten. -/
def digitChar10 : Nat → Char
  | 0 => '0'
  | 1 => '1'
  | 2 => '2'
  | 3 => '3'
  | 4 => '4'
  | 5 => '5'
  | 6 => '6'
  | 7 => '7'
  | 8 => '8'
  | 9 => '9'
  | _ => '*'

/-- Model of `date.fromisoformat` on the character list: exactly `YYYY-MM-DD` with a
four-digit year of at least 1 and a valid Gregorian month/day. -/
def parseChars : List Char → Option Date
  | [y1, y2, y3, y4, s1, m1, m2, s2, d1, d2] =>
    match digitVal? y1, digitVal? y2, digitVal? y3, digitVal? y4,
          digitVal? m1, digitVal? m2, digitVal? d1, digitVal? d2 with
    | some a, some b, some c, some d, some e, some f, some g, some h =>
      if s1 = '-' ∧ s2 = '-' then
        if 1 ≤ ((a * 10 + b) * 10 + c) * 10 + d ∧ 1 ≤ e * 10 + f ∧ e * 10 + f ≤ 12 ∧
            1 ≤ g * 10 + h ∧ g * 10 + h ≤ daysInMonth (((a * 10 + b) * 10 + c) * 10 + d) (e * 10 + f) then
          some ⟨((a * 10 + b) * 10 + c) * 10 + d, e * 10 + f, g * 10 + h⟩
        else none
      else none
    | _, _, _, _, _, _, _, _ => none
  | _ => none

/-- Model of `date.fromisoformat` on strings. -/
def parseIsoDate (s : String) : Option Date :=
  parseChars s.data

/-- The ten characters of `date.isoformat`. -/
def isoChars (d : Date) : List Char :=
  [digitChar10 (d.year / 1000 % 10), digitChar10 (d.year / 100 % 10),
   digitChar10 (d.year / 10 % 10), digitChar10 (d.year % 10), '-',
   digitChar10 (d.month / 10 % 10), digitChar10 (d.month % 10), '-',
   digitChar10 (d.day / 10 % 10), digitChar10 (d.day % 10)]

/-- Model of `date.isoformat`: zero-padded `YYYY-MM-DD`. -/
def Date.isoformat (d : Date) : String :=
  ⟨isoChars d⟩

/-- Python `date` strict comparison: lexicographic on (year, month, day). -/
def dateLt (a b : Date) : Bool :=
  if a.year ≠ b.year then decide (a.year < b.year)
  else if a.month ≠ b.month then decide (a.month < b.month)
  else decide (a.day < b.day)

/-- Value of a hexadecimal digit character, if it is one (both cases,
as `bson.ObjectId` accepts). -/
def hexVal? (c : Char) : Option Nat :=
  if 48 ≤ c.toNat ∧ c.toNat ≤ 57 then some (c.toNat - 48)
  else if 97 ≤ c.toNat ∧ c.toNat ≤ 102 then some (c.toNat - 87)
  else if 65 ≤ c.toNat ∧ c.toNat ≤ 70 then some (c.toNat - 55)
  else none

/-- Lowercase hexadecimal digit character of a value below sixteen. -/
def hexDigitChar : Nat → Char
  | 0 => '0'
  | 1 => '1'
  | 2 => '2'
  | 3 => '3'
  | 4 => '4'
  | 5 => '5'
  | 6 => '6'
  | 7 => '7'
  | 8 => '8'
  | 9 => '9'
  | 10 => 'a'
  | 11 => 'b'
  | 12 => 'c'
  | 13 => 'd'
  | 14 => 'e'
  | 15 => 'f'
  | _ => '*'

/-- Big-endian hex rendering of `n` over `w` digits. -/
def toHexChars : Nat → Nat → List Char
  | 0, _ => []
  | w + 1, n => toHexChars w (n / 16) ++ [hexDigitChar (n % 16)]

/-- Model of `str(ObjectId)`: the 24 lowercase hex digits of the id. -/
def toHex24 (n : Nat) : String :=
  ⟨toHexChars 24 n⟩

/-- Accumulating hex parser over a character list. -/
def parseHexChars : List Char → Nat → Option Nat
  | [], acc => some acc
  | c :: cs, acc =>
    match hexVal? c with
    | some v => parseHexChars cs (acc * 16 + v)
    | none => none

/-- Model of `bson.ObjectId(s)` on a string argument: accepted exactly when `s` is
24 hexadecimal characters; the id it denotes as a number. -/
def parseObjectId (s : String) : Option Nat :=
  if s.data.length = 24 then parseHexChars s.data 0 else none

/-- Python whitespace for `str.strip` (the ASCII whitespace characters). -/
def isPyWhitespace (c : Char) : Bool :=
  c = ' ' ∨ c = '\t' ∨ c = '\n' ∨ c = '\r' ∨ c = '\x0b' ∨ c = '\x0c'

/-- Python `str.strip()`: drop leading and trailing whitespace. -/
def strip (s : String) : String :=
  ⟨(((s.data.dropWhile isPyWhitespace).reverse.dropWhile isPyWhitespace).reverse)⟩

/-- An `HTTPException`: status code and detail message. -/
structure HTTPError where
  status : Nat
  detail : String
deriving Repr, DecidableEq

/-- A persisted announcement document. -/
structure AnnouncementDoc where
  _id : Nat
  message : String
  start_date : Option String
  expiration_date : String
deriving Repr, DecidableEq

/-- The serialized response shape produced by `_serialize_announcement`. -/
structure SerializedAnnouncement where
  id : String
  message : String
  start_date : Option String
  expiration_date : String
deriving Repr, DecidableEq

/-- The `{"message": ...}` confirmation object of delete. -/
structure MessageResponse where
  message : String
deriving Repr, DecidableEq

/-- The announcements collection: documents plus the next fresh id. -/
structure Store where
  records : List AnnouncementDoc
  nextId : Nat
deriving Repr, DecidableEq

/-- Embeds `_validate_teacher`: 401 when the username is missing or empty, 401 with
a different detail when it is not a key of the teachers collection. -/
def _validate_teacher (teachers : List String) (teacher_username : Option String) :
    Except HTTPError String :=
  match teacher_username with
  | none => .error ⟨401, "Authentication required for this action"⟩
  | some u =>
    if u = "" then .error ⟨401, "Authentication required for this action"⟩
    else
      match teachers.find? (fun t => t = u) with
      | none => .error ⟨401, "Invalid teacher credentials"⟩
      | some t => .ok t

/-- Embeds `_parse_date_or_none`: `None` for a missing or empty value, the parsed
date for a valid one, 400 naming the field otherwise. -/
def _parse_date_or_none (date_str : Option String) (field_name : String) :
    Except HTTPError (Option Date) :=
  match date_str with
  | none => .ok none
  | some s =>
    if s = "" then .ok none
    else
      match parseIsoDate s with
      | some d => .ok (some d)
      | none => .error ⟨400, field_name ++ " must be in YYYY-MM-DD format"⟩

/-- Embeds `_serialize_announcement`. -/
def _serialize_announcement (a : AnnouncementDoc) : SerializedAnnouncement :=
  ⟨toHex24 a._id, a.message, a.start_date, a.expiration_date⟩

/-- The active-announcements query of `get_announcements`:
`expiration_date >= today` and `start_date` null/missing, empty, or
`<= today` (MongoDB string comparison on the ISO text). -/
def matchesActive (today : String) (a : AnnouncementDoc) : Bool :=
  decide (today ≤ a.expiration_date) &&
    (a.start_date = none || a.start_date = some "" ||
      (match a.start_date with
       | some s => decide (s ≤ today)
       | none => false))

/-- The `sort("expiration_date", 1)` key order of the public listing. -/
def expLe (a b : AnnouncementDoc) : Prop :=
  a.expiration_date ≤ b.expiration_date

instance : DecidableRel expLe := fun a b => by
  unfold expLe; infer_instance

instance : IsTotal AnnouncementDoc expLe :=
  ⟨fun a b => le_total a.expiration_date b.expiration_date⟩

instance : IsTrans AnnouncementDoc expLe :=
  ⟨fun _ _ _ => le_trans⟩

/-- MongoDB ordering of an optional string field, null/missing first. -/
def optStrLe : Option String → Option String → Prop
  | none, _ => True
  | some _, none => False
  | some a, some b => a ≤ b

instance : DecidableRel optStrLe := fun a b => by
  cases a <;> cases b <;> unfold optStrLe <;> infer_instance

/-- The `[("expiration_date", 1), ("start_date", 1)]` sort order of the
management listing. -/
def manageLe (a b : AnnouncementDoc) : Prop :=
  if a.expiration_date = b.expiration_date then optStrLe a.start_date b.start_date
  else a.expiration_date ≤ b.expiration_date

instance : DecidableRel manageLe := fun a b => by
  unfold manageLe; split <;> infer_instance

/-- Embeds `GET /announcements` (`get_announcements`): public active listing for the
given current date (`date.today()` is the injected `today`). -/
def get_announcements (store : Store) (today : Date) :
    Except HTTPError (List SerializedAnnouncement) :=
  .ok (((store.records.filter (matchesActive today.isoformat)).insertionSort expLe).map
    _serialize_announcement)

/-- Embeds `GET /announcements/manage` (`get_all_announcements`). -/
def get_all_announcements (teachers : List String) (store : Store)
    (teacher_username : Option String) : Except HTTPError (List SerializedAnnouncement) :=
  match _validate_teacher teachers teacher_username with
  | .error e => .error e
  | .ok _ => .ok ((store.records.insertionSort manageLe).map _serialize_announcement)

/-- The Python truthiness test `parsed_start and parsed_start > parsed_expiration`. -/
def startAfterEnd (parsed_start : Option Date) (parsed_expiration : Date) : Bool :=
  match parsed_start with
  | some ps => dateLt parsed_expiration ps
  | none => false

/-- The document `create_announcement` inserts: trimmed message, optional
ISO start text, ISO expiration text, with the store-assigned id. -/
def newDoc (store : Store) (message : String) (parsed_start : Option Date)
    (parsed_expiration : Date) : AnnouncementDoc :=
  ⟨store.nextId, message, parsed_start.map Date.isoformat, parsed_expiration.isoformat⟩

/-- The collection after `insert_one` of the new document. -/
def insertedStore (store : Store) (message : String) (parsed_start : Option Date)
    (parsed_expiration : Date) : Store :=
  ⟨store.records ++ [newDoc store message parsed_start parsed_expiration],
   store.nextId + 1⟩

/-- Embeds `POST /announcements` (`create_announcement`). Returns the response and
the collection state after the request. -/
def create_announcement (teachers : List String) (store : Store)
    (message expiration_date : String) (start_date : Option String)
    (teacher_username : Option String) : Except HTTPError SerializedAnnouncement × Store :=
  match _validate_teacher teachers teacher_username with
  | .error e => (.error e, store)
  | .ok _ =>
    if strip message = "" then (.error ⟨400, "Message is required"⟩, store)
    else
      match _parse_date_or_none start_date "start_date" with
      | .error e => (.error e, store)
      | .ok parsed_start =>
        match _parse_date_or_none (some expiration_date) "expiration_date" with
        | .error e => (.error e, store)
        | .ok none => (.error ⟨400, "expiration_date is required"⟩, store)
        | .ok (some parsed_expiration) =>
          if startAfterEnd parsed_start parsed_expiration then
            (.error ⟨400, "expiration_date must be on or after start_date"⟩, store)
          else
            match (insertedStore store (strip message) parsed_start parsed_expiration).records.find?
                (fun r => r._id = store.nextId) with
            | some created =>
              (.ok (_serialize_announcement created),
               insertedStore store (strip message) parsed_start parsed_expiration)
            | none =>
              (.error ⟨500, "Internal Server Error"⟩,
               insertedStore store (strip message) parsed_start parsed_expiration)

/-- Model of `update_one` on the `_id` filter: overwrite the first matching document
(MongoDB point update; `_id` is never in the `$set`). -/
def updateOneById (records : List AnnouncementDoc) (oid : Nat)
    (f : AnnouncementDoc → AnnouncementDoc) : List AnnouncementDoc :=
  match records with
  | [] => []
  | r :: rest => if r._id = oid then f r :: rest else r :: updateOneById rest oid f

/-- The `$set` document of `update_announcement`. -/
def setFields (message : String) (parsed_start : Option Date) (parsed_expiration : Date)
    (r : AnnouncementDoc) : AnnouncementDoc :=
  { r with
    message := message,
    start_date := parsed_start.map Date.isoformat,
    expiration_date := parsed_expiration.isoformat }

/-- The collection after `update_one` on the `_id` filter. -/
def updatedStore (store : Store) (object_id : Nat) (message : String)
    (parsed_start : Option Date) (parsed_expiration : Date) : Store :=
  ⟨updateOneById store.records object_id (setFields message parsed_start parsed_expiration),
   store.nextId⟩

/-- Embeds the `PUT` route on an announcement id (`update_announcement`). Returns
the response and the collection state after the request. -/
def update_announcement (teachers : List String) (store : Store)
    (announcement_id message expiration_date : String) (start_date : Option String)
    (teacher_username : Option String) : Except HTTPError SerializedAnnouncement × Store :=
  match _validate_teacher teachers teacher_username with
  | .error e => (.error e, store)
  | .ok _ =>
    if strip message = "" then (.error ⟨400, "Message is required"⟩, store)
    else
      match _parse_date_or_none start_date "start_date" with
      | .error e => (.error e, store)
      | .ok parsed_start =>
        match _parse_date_or_none (some expiration_date) "expiration_date" with
        | .error e => (.error e, store)
        | .ok none => (.error ⟨400, "expiration_date is required"⟩, store)
        | .ok (some parsed_expiration) =>
          if startAfterEnd parsed_start parsed_expiration then
            (.error ⟨400, "expiration_date must be on or after start_date"⟩, store)
          else
            match parseObjectId announcement_id with
            | none => (.error ⟨400, "Invalid announcement id"⟩, store)
            | some object_id =>
              if store.records.any (fun r => r._id = object_id) then
                match (updatedStore store object_id (strip message) parsed_start
                    parsed_expiration).records.find? (fun r => r._id = object_id) with
                | some updated =>
                  (.ok (_serialize_announcement updated),
                   updatedStore store object_id (strip message) parsed_start parsed_expiration)
                | none =>
                  (.error ⟨500, "Internal Server Error"⟩,
                   updatedStore store object_id (strip message) parsed_start parsed_expiration)
              else
                (.error ⟨404, "Announcement not found"⟩,
                 updatedStore store object_id (strip message) parsed_start parsed_expiration)

/-- The collection after `delete_one` on the `_id` filter: the first
matching document is removed. -/
def erasedStore (store : Store) (object_id : Nat) : Store :=
  ⟨store.records.eraseP (fun r => r._id = object_id), store.nextId⟩

/-- Embeds the `DELETE` route on an announcement id (`delete_announcement`).
`delete_one` removes the first document matching the `_id` filter. -/
def delete_announcement (teachers : List String) (store : Store)
    (announcement_id : String) (teacher_username : Option String) :
    Except HTTPError MessageResponse × Store :=
  match _validate_teacher teachers teacher_username with
  | .error e => (.error e, store)
  | .ok _ =>
    match parseObjectId announcement_id with
    | none => (.error ⟨400, "Invalid announcement id"⟩, store)
    | some object_id =>
      if store.records.any (fun r => r._id = object_id) then
        (.ok ⟨"Announcement deleted"⟩, erasedStore store object_id)
      else (.error ⟨404, "Announcement not found"⟩, erasedStore store object_id)

/-! ### Round-trip facts about `parseIsoDate` and `Date.isoformat` -/

theorem digitVal?_lt {c : Char} {k : Nat} (h : digitVal? c = some k) : k < 10 := by
  unfold digitVal? at h
  split at h
  case isTrue hc =>
    injection h with h
    omega
  case isFalse => exact absurd h (by simp)

theorem digitChar10_digitVal? {c : Char} {k : Nat} (h : digitVal? c = some k) :
    digitChar10 k = c := by
  unfold digitVal? at h
  split at h
  case isTrue hc =>
    injection h with h
    subst h
    obtain ⟨h1, h2⟩ := hc
    rw [show c = Char.ofNat c.toNat from (Char.ofNat_toNat c).symm]
    set n := c.toNat with hn
    interval_cases n <;> decide
  case isFalse => exact absurd h (by simp)

theorem parseChars_isoChars {l : List Char} {d : Date} (h : parseChars l = some d) :
    isoChars d = l := by
  unfold parseChars at h
  split at h
  case h_2 => exact absurd h (by simp)
  case h_1 y1 y2 y3 y4 s1 m1 m2 s2 d1 d2 =>
    split at h
    case h_2 => exact absurd h (by simp)
    case h_1 a b c dd e f g hh hy1 hy2 hy3 hy4 hm1 hm2 hd1 hd2 =>
      split at h
      case isFalse => exact absurd h (by simp)
      case isTrue hsep =>
        split at h
        case isFalse => exact absurd h (by simp)
        case isTrue hval =>
          obtain ⟨hs1, hs2⟩ := hsep
          injection h with h
          subst h hs1 hs2
          have ha := digitVal?_lt hy1
          have hb := digitVal?_lt hy2
          have hc := digitVal?_lt hy3
          have hd := digitVal?_lt hy4
          have he := digitVal?_lt hm1
          have hf := digitVal?_lt hm2
          have hg := digitVal?_lt hd1
          have hh2 := digitVal?_lt hd2
          simp only [isoChars]
          have e1 : (((a * 10 + b) * 10 + c) * 10 + dd) / 1000 % 10 = a := by omega
          have e2 : (((a * 10 + b) * 10 + c) * 10 + dd) / 100 % 10 = b := by omega
          have e3 : (((a * 10 + b) * 10 + c) * 10 + dd) / 10 % 10 = c := by omega
          have e4 : (((a * 10 + b) * 10 + c) * 10 + dd) % 10 = dd := by omega
          have e5 : (e * 10 + f) / 10 % 10 = e := by omega
          have e6 : (e * 10 + f) % 10 = f := by omega
          have e7 : (g * 10 + hh) / 10 % 10 = g := by omega
          have e8 : (g * 10 + hh) % 10 = hh := by omega
          rw [e1, e2, e3, e4, e5, e6, e7, e8,
            digitChar10_digitVal? hy1, digitChar10_digitVal? hy2,
            digitChar10_digitVal? hy3, digitChar10_digitVal? hy4,
            digitChar10_digitVal? hm1, digitChar10_digitVal? hm2,
            digitChar10_digitVal? hd1, digitChar10_digitVal? hd2]

theorem parseIsoDate_isoformat {s : String} {d : Date} (h : parseIsoDate s = some d) :
    d.isoformat = s := by
  unfold parseIsoDate at h
  unfold Date.isoformat
  rw [parseChars_isoChars h]

theorem isoformat_ne_empty (d : Date) : d.isoformat ≠ "" := by
  intro h
  have h2 := congrArg String.data h
  simp [Date.isoformat, isoChars] at h2

/-! ### Round-trip facts about `parseObjectId` and `toHex24` -/

theorem hexVal?_lt {c : Char} {v : Nat} (h : hexVal? c = some v) : v < 16 := by
  unfold hexVal? at h
  split at h
  case isTrue hc =>
    injection h with h
    omega
  case isFalse =>
    split at h
    case isTrue hc =>
      injection h with h
      omega
    case isFalse =>
      split at h
      case isTrue hc =>
        injection h with h
        omega
      case isFalse => exact absurd h (by simp)

theorem hexVal?_hexDigitChar : ∀ k, k < 16 → hexVal? (hexDigitChar k) = some k := by
  decide

theorem length_toHexChars : ∀ (w n : Nat), (toHexChars w n).length = w := by
  intro w
  induction w with
  | zero => intro n; rfl
  | succ w ih => intro n; simp [toHexChars, ih]

theorem parseHexChars_append {l₁ : List Char} {a b : Nat} (l₂ : List Char)
    (h : parseHexChars l₁ a = some b) :
    parseHexChars (l₁ ++ l₂) a = parseHexChars l₂ b := by
  induction l₁ generalizing a with
  | nil =>
    simp only [parseHexChars] at h
    injection h with h
    subst h
    rfl
  | cons c cs ih =>
    simp only [parseHexChars, List.cons_append] at h ⊢
    cases hc : hexVal? c with
    | none => rw [hc] at h; simp at h
    | some v => rw [hc] at h; exact ih h

theorem parseHexChars_toHexChars :
    ∀ (w a n : Nat), parseHexChars (toHexChars w n) a = some (a * 16 ^ w + n % 16 ^ w) := by
  intro w
  induction w with
  | zero => intro a n; simp [toHexChars, parseHexChars, Nat.mod_one]
  | succ w ih =>
    intro a n
    simp only [toHexChars]
    rw [parseHexChars_append _ (ih a (n / 16))]
    simp only [parseHexChars, hexVal?_hexDigitChar (n % 16) (Nat.mod_lt n (by omega))]
    have hm : n % 16 ^ (w + 1) = n % 16 + 16 * (n / 16 % 16 ^ w) := by
      rw [pow_succ']
      exact Nat.mod_mul
    rw [hm, pow_succ]
    congr 1
    ring

theorem parseObjectId_toHex24 {n : Nat} (h : n < 16 ^ 24) :
    parseObjectId (toHex24 n) = some n := by
  unfold parseObjectId toHex24
  rw [if_pos (by exact length_toHexChars 24 n)]
  rw [parseHexChars_toHexChars 24 0 n, Nat.mod_eq_of_lt h]
  simp

theorem toHex24_inj {a b : Nat} (ha : a < 16 ^ 24) (hb : b < 16 ^ 24)
    (h : toHex24 a = toHex24 b) : a = b := by
  have h2 := congrArg parseObjectId h
  rw [parseObjectId_toHex24 ha, parseObjectId_toHex24 hb] at h2
  injection h2

theorem parseHexChars_lt :
    ∀ {l : List Char} {a v : Nat}, parseHexChars l a = some v → v < (a + 1) * 16 ^ l.length := by
  intro l
  induction l with
  | nil =>
    intro a v h
    simp only [parseHexChars] at h
    injection h with h
    subst h
    simp
  | cons c cs ih =>
    intro a v h
    simp only [parseHexChars] at h
    cases hc : hexVal? c with
    | none => rw [hc] at h; exact absurd h (by simp)
    | some x =>
      rw [hc] at h
      have hx : x < 16 := hexVal?_lt hc
      have h2 := ih h
      have h3 : (a * 16 + x + 1) * 16 ^ cs.length ≤ ((a + 1) * 16) * 16 ^ cs.length :=
        Nat.mul_le_mul_right _ (by omega)
      calc v < (a * 16 + x + 1) * 16 ^ cs.length := h2
        _ ≤ ((a + 1) * 16) * 16 ^ cs.length := h3
        _ = (a + 1) * 16 ^ (c :: cs).length := by
            simp only [List.length_cons, pow_succ]
            ring

theorem parseObjectId_lt {s : String} {n : Nat} (h : parseObjectId s = some n) :
    n < 16 ^ 24 := by
  unfold parseObjectId at h
  split at h
  case isFalse => exact absurd h (by simp)
  case isTrue hlen =>
    have h2 := parseHexChars_lt h
    rw [hlen] at h2
    simpa using h2

/-! ### Facts about the validation helpers -/

theorem parse_empty : parseIsoDate "" = none := rfl

theorem parse_ok_none_iff (ds : Option String) (label : String) :
    _parse_date_or_none ds label = .ok none ↔ ds = none ∨ ds = some "" := by
  constructor
  · intro h
    cases ds with
    | none => exact Or.inl rfl
    | some s =>
      by_cases hs : s = ""
      · exact Or.inr (by rw [hs])
      · exfalso
        simp only [_parse_date_or_none] at h
        rw [if_neg hs] at h
        cases hp : parseIsoDate s with
        | some d => rw [hp] at h; exact absurd h (by simp)
        | none => rw [hp] at h; exact absurd h (by simp)
  · intro h
    rcases h with h | h <;> subst h <;> rfl

theorem parse_ok_some_inv {ds : Option String} {label : String} {d : Date}
    (h : _parse_date_or_none ds label = .ok (some d)) :
    ∃ s, ds = some s ∧ s ≠ "" ∧ parseIsoDate s = some d := by
  cases ds with
  | none => exact absurd h (by simp [_parse_date_or_none])
  | some s =>
    simp only [_parse_date_or_none] at h
    by_cases hs : s = ""
    · rw [if_pos hs] at h; exact absurd h (by simp)
    · rw [if_neg hs] at h
      cases hp : parseIsoDate s with
      | none => rw [hp] at h; exact absurd h (by simp)
      | some d2 =>
        rw [hp] at h
        injection h with h
        injection h with h
        exact ⟨s, rfl, hs, by rw [hp, h]⟩

theorem parse_ok_some {s : String} {d : Date} (label : String)
    (hp : parseIsoDate s = some d) :
    _parse_date_or_none (some s) label = .ok (some d) := by
  have hs : s ≠ "" := by
    intro he
    subst he
    rw [parse_empty] at hp
    exact absurd hp (by simp)
  simp only [_parse_date_or_none]
  rw [if_neg hs, hp]

theorem parse_error {s : String} (label : String) (hs : s ≠ "")
    (hp : parseIsoDate s = none) :
    _parse_date_or_none (some s) label =
      .error ⟨400, label ++ " must be in YYYY-MM-DD format"⟩ := by
  simp only [_parse_date_or_none]
  rw [if_neg hs, hp]

theorem validate_mem {teachers : List String} {u : String} (hne : u ≠ "")
    (hm : u ∈ teachers) : _validate_teacher teachers (some u) = .ok u := by
  simp only [_validate_teacher]
  rw [if_neg hne]
  cases hf : teachers.find? (fun t => t = u) with
  | none =>
    exfalso
    rw [List.find?_eq_none] at hf
    exact absurd (hf u hm) (by simp)
  | some t =>
    have ht := List.find?_some hf
    simp only [decide_eq_true_eq] at ht
    rw [ht]

theorem validate_not_mem {teachers : List String} {u : String} (hne : u ≠ "")
    (hm : u ∉ teachers) :
    _validate_teacher teachers (some u) = .error ⟨401, "Invalid teacher credentials"⟩ := by
  simp only [_validate_teacher]
  rw [if_neg hne]
  cases hf : teachers.find? (fun t => t = u) with
  | none => rfl
  | some t =>
    exfalso
    have ht := List.find?_some hf
    simp only [decide_eq_true_eq] at ht
    exact hm (ht ▸ List.mem_of_find?_eq_some hf)

/-! ### Facts about the point update and point delete -/

theorem updateOneById_no_match {l : List AnnouncementDoc} {oid : Nat}
    {f : AnnouncementDoc → AnnouncementDoc} (h : ∀ r ∈ l, r._id ≠ oid) :
    updateOneById l oid f = l := by
  induction l with
  | nil => rfl
  | cons a rest ih =>
    unfold updateOneById
    rw [if_neg (h a (List.mem_cons_self a rest))]
    rw [ih (fun x hx => h x (List.mem_cons_of_mem a hx))]

theorem mem_updateOneById {l : List AnnouncementDoc} {oid : Nat}
    {f : AnnouncementDoc → AnnouncementDoc} {r : AnnouncementDoc}
    (h : r ∈ updateOneById l oid f) : r ∈ l ∨ ∃ r₀, r₀ ∈ l ∧ r = f r₀ := by
  induction l with
  | nil => exact absurd h (by simp [updateOneById])
  | cons a rest ih =>
    unfold updateOneById at h
    by_cases ha : a._id = oid
    · rw [if_pos ha] at h
      rcases List.mem_cons.mp h with h | h
      · exact Or.inr ⟨a, List.mem_cons_self a rest, h⟩
      · exact Or.inl (List.mem_cons_of_mem a h)
    · rw [if_neg ha] at h
      rcases List.mem_cons.mp h with h | h
      · exact Or.inl (by rw [h]; exact List.mem_cons_self a rest)
      · rcases ih h with h2 | ⟨r₀, hr₀, he⟩
        · exact Or.inl (List.mem_cons_of_mem a h2)
        · exact Or.inr ⟨r₀, List.mem_cons_of_mem a hr₀, he⟩

theorem updateOneById_eq_map {l : List AnnouncementDoc} {oid : Nat}
    {f : AnnouncementDoc → AnnouncementDoc}
    (hnd : (l.map fun r => r._id).Nodup) :
    updateOneById l oid f = l.map fun r => if r._id = oid then f r else r := by
  induction l with
  | nil => rfl
  | cons a rest ih =>
    simp only [List.map_cons, List.nodup_cons] at hnd
    obtain ⟨hna, hnd2⟩ := hnd
    unfold updateOneById
    by_cases ha : a._id = oid
    · rw [if_pos ha, List.map_cons, if_pos ha]
      have hg : ∀ x ∈ rest, (if x._id = oid then f x else x) = id x := by
        intro x hx
        have hxid : x._id ≠ oid := by
          intro hxo
          exact hna (by
            rw [ha, ← hxo]
            exact List.mem_map.mpr ⟨x, hx, rfl⟩)
        simp [hxid]
      rw [List.map_congr_left hg, List.map_id]
    · rw [if_neg ha, List.map_cons, if_neg ha, ih hnd2]

theorem find?_updateOneById {oid : Nat} {f : AnnouncementDoc → AnnouncementDoc}
    (hf : ∀ r, (f r)._id = r._id) :
    ∀ {l : List AnnouncementDoc} {r₀ : AnnouncementDoc},
      l.find? (fun r => r._id = oid) = some r₀ →
      (updateOneById l oid f).find? (fun r => r._id = oid) = some (f r₀) := by
  intro l
  induction l with
  | nil => intro r₀ h; exact absurd h (by simp)
  | cons a rest ih =>
    intro r₀ h
    by_cases ha : a._id = oid
    · rw [List.find?_cons_of_pos _ (by simp [ha])] at h
      injection h with h
      subst h
      unfold updateOneById
      rw [if_pos ha]
      exact List.find?_cons_of_pos _ (by simp [hf, ha])
    · rw [List.find?_cons_of_neg _ (by simp [ha])] at h
      unfold updateOneById
      rw [if_neg ha, List.find?_cons_of_neg _ (by simp [ha])]
      exact ih h

theorem setFields_id (message : String) (ps : Option Date) (pe : Date)
    (r : AnnouncementDoc) : (setFields message ps pe r)._id = r._id := rfl

/-! ### Membership in the two read operations -/

theorem mem_get_announcements {store : Store} {today : Date}
    {l : List SerializedAnnouncement} {s : SerializedAnnouncement}
    (h : get_announcements store today = .ok l) (hs : s ∈ l) :
    ∃ a, a ∈ store.records ∧ s = _serialize_announcement a := by
  unfold get_announcements at h
  injection h with h
  subst h
  rcases List.mem_map.mp hs with ⟨a, ha, he⟩
  have ha2 := (List.perm_insertionSort expLe _).mem_iff.mp ha
  exact ⟨a, (List.mem_filter.mp ha2).1, he.symm⟩

theorem mem_get_all_announcements {teachers : List String} {store : Store}
    {u : Option String} {l : List SerializedAnnouncement} {s : SerializedAnnouncement}
    (h : get_all_announcements teachers store u = .ok l) (hs : s ∈ l) :
    ∃ a, a ∈ store.records ∧ s = _serialize_announcement a := by
  unfold get_all_announcements at h
  cases hv : _validate_teacher teachers u with
  | error e => rw [hv] at h; exact absurd h (by simp)
  | ok t =>
    rw [hv] at h
    injection h with h
    subst h
    rcases List.mem_map.mp hs with ⟨a, ha, he⟩
    have ha2 := (List.perm_insertionSort manageLe _).mem_iff.mp ha
    exact ⟨a, ha2, he.symm⟩

/-- The active query as a proposition, in the terms of the specification. -/
theorem matchesActive_iff {today : String} {a : AnnouncementDoc} :
    matchesActive today a = true ↔
      today ≤ a.expiration_date ∧
        (a.start_date = none ∨ a.start_date = some "" ∨
          ∃ sd, a.start_date = some sd ∧ sd ≤ today) := by
  unfold matchesActive
  cases hsd : a.start_date with
  | none => simp
  | some s =>
    simp only [Bool.and_eq_true, Bool.or_eq_true, decide_eq_true_eq]
    constructor
    · rintro ⟨h1, h2⟩
      refine ⟨h1, ?_⟩
      rcases h2 with h2 | h2
      · rcases h2 with h2 | h2
        · exact absurd h2 (by simp)
        · exact Or.inr (Or.inl (by simpa using h2))
      · exact Or.inr (Or.inr ⟨s, rfl, by simpa using h2⟩)
    · rintro ⟨h1, h2⟩
      refine ⟨h1, ?_⟩
      rcases h2 with h2 | h2 | ⟨sd, hsd2, hle⟩
      · exact absurd h2 (by simp)
      · exact Or.inl (Or.inr (by simpa using h2))
      · injection hsd2 with hsd2
        subst hsd2
        exact Or.inr (by simpa using hle)

/-! ### Claim theorems -/

/-- C1: for every store state and current date, the public list-active
operation returns exactly the announcements whose `expiration_date >= today`
and whose `start_date` is absent/empty or `<= today`, ordered by ascending
`expiration_date`, and returns an empty sequence (never an error) when no
announcement matches. -/
theorem C1_list_active (store : Store) (today : Date) :
    ∃ l, get_announcements store today = .ok l ∧
      (∀ s, s ∈ l ↔ ∃ a, a ∈ store.records ∧
        today.isoformat ≤ a.expiration_date ∧
        (a.start_date = none ∨ a.start_date = some "" ∨
          ∃ sd, a.start_date = some sd ∧ sd ≤ today.isoformat) ∧
        s = _serialize_announcement a) ∧
      l.Sorted (fun x y => x.expiration_date ≤ y.expiration_date) ∧
      ((∀ a ∈ store.records, ¬ (today.isoformat ≤ a.expiration_date ∧
          (a.start_date = none ∨ a.start_date = some "" ∨
            ∃ sd, a.start_date = some sd ∧ sd ≤ today.isoformat))) → l = []) := by
  refine ⟨_, rfl, ?_, ?_, ?_⟩
  · intro s
    constructor
    · intro hs
      rcases List.mem_map.mp hs with ⟨a, ha, he⟩
      have ha2 := (List.perm_insertionSort expLe _).mem_iff.mp ha
      obtain ⟨hmem, hact⟩ := List.mem_filter.mp ha2
      obtain ⟨h1, h2⟩ := matchesActive_iff.mp hact
      exact ⟨a, hmem, h1, h2, he.symm⟩
    · rintro ⟨a, hmem, h1, h2, hse⟩
      subst hse
      refine List.mem_map.mpr ⟨a, ?_, rfl⟩
      refine (List.perm_insertionSort expLe _).mem_iff.mpr ?_
      exact List.mem_filter.mpr ⟨hmem, matchesActive_iff.mpr ⟨h1, h2⟩⟩
  · have hs := List.sorted_insertionSort expLe
      (store.records.filter (matchesActive today.isoformat))
    exact List.Pairwise.map _ (fun a b hab => hab) hs
  · intro hnone
    have hf : store.records.filter (matchesActive today.isoformat) = [] := by
      rw [List.filter_eq_nil_iff]
      intro a ha hact
      exact hnone a ha (matchesActive_iff.mp hact)
    rw [hf]
    rfl

/-- C4: the authentication guard 401s on a missing or empty identifier and on
one that does not resolve in the teacher directory, succeeds on a resolving
one, its failure short-circuits list-all, create, update and delete, and the
public list-active operation never authenticates (it succeeds on every
input). -/
theorem C4_auth_guard :
    (∀ teachers, _validate_teacher teachers none =
      .error ⟨401, "Authentication required for this action"⟩) ∧
    (∀ teachers, _validate_teacher teachers (some "") =
      .error ⟨401, "Authentication required for this action"⟩) ∧
    (∀ teachers u, u ≠ "" → u ∉ teachers →
      _validate_teacher teachers (some u) = .error ⟨401, "Invalid teacher credentials"⟩) ∧
    (∀ teachers u, u ≠ "" → u ∈ teachers →
      _validate_teacher teachers (some u) = .ok u) ∧
    (∀ teachers store u e, _validate_teacher teachers u = .error e →
      get_all_announcements teachers store u = .error e) ∧
    (∀ teachers store msg expd sd u e, _validate_teacher teachers u = .error e →
      create_announcement teachers store msg expd sd u = (.error e, store)) ∧
    (∀ teachers store aid msg expd sd u e, _validate_teacher teachers u = .error e →
      update_announcement teachers store aid msg expd sd u = (.error e, store)) ∧
    (∀ teachers store aid u e, _validate_teacher teachers u = .error e →
      delete_announcement teachers store aid u = (.error e, store)) ∧
    (∀ store today, ∃ l, get_announcements store today = .ok l) := by
  refine ⟨fun teachers => rfl, fun teachers => rfl, ?_, ?_, ?_, ?_, ?_, ?_, ?_⟩
  · intro teachers u hne hnm
    exact validate_not_mem hne hnm
  · intro teachers u hne hm
    exact validate_mem hne hm
  · intro teachers store u e hv
    unfold get_all_announcements
    rw [hv]
  · intro teachers store msg expd sd u e hv
    unfold create_announcement
    rw [hv]
  · intro teachers store aid msg expd sd u e hv
    unfold update_announcement
    rw [hv]
  · intro teachers store aid u e hv
    unfold delete_announcement
    rw [hv]
  · intro store today
    exact ⟨_, rfl⟩

/-- C5: the date parser returns `None` exactly on missing or empty input,
the parsed calendar date on a valid `YYYY-MM-DD` input, and an
`InvalidDateFormat` error naming the field label on a non-empty invalid
input. -/
theorem C5_parse_date (ds : Option String) (label : String) :
    (_parse_date_or_none ds label = .ok none ↔ ds = none ∨ ds = some "") ∧
    (∀ s d, ds = some s → parseIsoDate s = some d →
      _parse_date_or_none ds label = .ok (some d)) ∧
    (∀ s, ds = some s → s ≠ "" → parseIsoDate s = none →
      _parse_date_or_none ds label =
        .error ⟨400, label ++ " must be in YYYY-MM-DD format"⟩) := by
  refine ⟨parse_ok_none_iff ds label, ?_, ?_⟩
  · intro s d hds hp
    subst hds
    exact parse_ok_some label hp
  · intro s hds hne hp
    subst hds
    exact parse_error label hne hp

/-- C6: when both dates parse and the parsed start date is strictly after the
parsed expiration date, create and update fail with the `InvalidDateRange`
error and leave the store unchanged. -/
theorem C6_invalid_date_range (teachers : List String) (store : Store)
    (aid msg expd : String) (sd u : Option String) (t : String) (ps pe : Date)
    (hauth : _validate_teacher teachers u = .ok t)
    (hmsg : strip msg ≠ "")
    (hs : _parse_date_or_none sd "start_date" = .ok (some ps))
    (he : _parse_date_or_none (some expd) "expiration_date" = .ok (some pe))
    (hrange : dateLt pe ps = true) :
    create_announcement teachers store msg expd sd u =
      (.error ⟨400, "expiration_date must be on or after start_date"⟩, store) ∧
    update_announcement teachers store aid msg expd sd u =
      (.error ⟨400, "expiration_date must be on or after start_date"⟩, store) := by
  have hrng : startAfterEnd (some ps) pe = true := hrange
  constructor
  · simp only [create_announcement, hauth, if_neg hmsg, hs, he, hrng, if_true]
  · simp only [update_announcement, hauth, if_neg hmsg, hs, he, hrng, if_true]

/-- C6 witness: the concrete scenario of the specification. -/
theorem C6_invalid_date_range_witness :
    create_announcement ["t"] ⟨[], 0⟩ "m" "2025-06-01" (some "2025-06-05") (some "t") =
      (.error ⟨400, "expiration_date must be on or after start_date"⟩, (⟨[], 0⟩ : Store)) ∧
    update_announcement ["t"] ⟨[], 0⟩ "x" "m" "2025-06-01" (some "2025-06-05") (some "t") =
      (.error ⟨400, "expiration_date must be on or after start_date"⟩, (⟨[], 0⟩ : Store)) :=
  C6_invalid_date_range ["t"] ⟨[], 0⟩ "x" "m" "2025-06-01" (some "2025-06-05") (some "t")
    "t" ⟨2025, 6, 5⟩ ⟨2025, 6, 1⟩ rfl (by decide) rfl rfl rfl

/-- C10: update runs the message validation before parsing the identifier:
with an authorized teacher, an all-whitespace message and a malformed
identifier, the result is the `EmptyMessage` error, not `InvalidIdentifier`. -/
theorem C10_message_check_first (teachers : List String) (store : Store)
    (aid msg expd : String) (sd u : Option String) (t : String)
    (hauth : _validate_teacher teachers u = .ok t)
    (hmsg : strip msg = "")
    (hbad : parseObjectId aid = none) :
    update_announcement teachers store aid msg expd sd u =
      (.error ⟨400, "Message is required"⟩, store) := by
  simp only [update_announcement, hauth, hmsg, if_pos]

/-- C10 witness: a whitespace message with a malformed identifier yields the
message error. -/
theorem C10_message_check_first_witness :
    update_announcement ["t"] ⟨[], 0⟩ "not-an-id" "   " "2025-06-01" none (some "t") =
      (.error ⟨400, "Message is required"⟩, (⟨[], 0⟩ : Store)) :=
  C10_message_check_first ["t"] ⟨[], 0⟩ "not-an-id" "   " "2025-06-01" none (some "t") "t"
    rfl (by decide) rfl

/-! ### Error results leave the store unchanged -/

theorem create_error_unchanged {teachers : List String} {store : Store}
    {msg expd : String} {sd u : Option String} {e : HTTPError} {st2 : Store}
    (h : create_announcement teachers store msg expd sd u = (.error e, st2)) :
    st2 = store := by
  unfold create_announcement at h
  cases hv : _validate_teacher teachers u with
  | error e2 =>
    simp only [hv] at h
    exact (congrArg Prod.snd h).symm
  | ok t =>
    simp only [hv] at h
    by_cases hm : strip msg = ""
    · rw [if_pos hm] at h
      exact (congrArg Prod.snd h).symm
    · rw [if_neg hm] at h
      cases hps : _parse_date_or_none sd "start_date" with
      | error e2 =>
        simp only [hps] at h
        exact (congrArg Prod.snd h).symm
      | ok parsed_start =>
        simp only [hps] at h
        cases hpe : _parse_date_or_none (some expd) "expiration_date" with
        | error e2 =>
          simp only [hpe] at h
          exact (congrArg Prod.snd h).symm
        | ok popt =>
          cases popt with
          | none =>
            simp only [hpe] at h
            exact (congrArg Prod.snd h).symm
          | some pe =>
            simp only [hpe] at h
            by_cases hr : startAfterEnd parsed_start pe = true
            · rw [if_pos hr] at h
              exact (congrArg Prod.snd h).symm
            · rw [if_neg hr] at h
              cases hf : (insertedStore store (strip msg) parsed_start pe).records.find?
                  (fun r => r._id = store.nextId) with
              | some created =>
                simp only [hf] at h
                have h1 := congrArg Prod.fst h
                simp at h1
              | none =>
                exfalso
                rw [List.find?_eq_none] at hf
                have hmem : newDoc store (strip msg) parsed_start pe ∈
                    (insertedStore store (strip msg) parsed_start pe).records :=
                  List.mem_append_right _ (List.mem_cons_self _ _)
                have h2 := hf _ hmem
                simp [newDoc] at h2

theorem update_error_unchanged {teachers : List String} {store : Store}
    {aid msg expd : String} {sd u : Option String} {e : HTTPError} {st2 : Store}
    (h : update_announcement teachers store aid msg expd sd u = (.error e, st2)) :
    st2 = store := by
  unfold update_announcement at h
  cases hv : _validate_teacher teachers u with
  | error e2 =>
    simp only [hv] at h
    exact (congrArg Prod.snd h).symm
  | ok t =>
    simp only [hv] at h
    by_cases hm : strip msg = ""
    · rw [if_pos hm] at h
      exact (congrArg Prod.snd h).symm
    · rw [if_neg hm] at h
      cases hps : _parse_date_or_none sd "start_date" with
      | error e2 =>
        simp only [hps] at h
        exact (congrArg Prod.snd h).symm
      | ok parsed_start =>
        simp only [hps] at h
        cases hpe : _parse_date_or_none (some expd) "expiration_date" with
        | error e2 =>
          simp only [hpe] at h
          exact (congrArg Prod.snd h).symm
        | ok popt =>
          cases popt with
          | none =>
            simp only [hpe] at h
            exact (congrArg Prod.snd h).symm
          | some pe =>
            simp only [hpe] at h
            by_cases hr : startAfterEnd parsed_start pe = true
            · rw [if_pos hr] at h
              exact (congrArg Prod.snd h).symm
            · rw [if_neg hr] at h
              cases ho : parseObjectId aid with
              | none =>
                simp only [ho] at h
                exact (congrArg Prod.snd h).symm
              | some object_id =>
                simp only [ho] at h
                by_cases hany : store.records.any (fun r => r._id = object_id) = true
                · rw [if_pos hany] at h
                  cases hf : (updatedStore store object_id (strip msg) parsed_start
                      pe).records.find? (fun r => r._id = object_id) with
                  | some updated =>
                    simp only [hf] at h
                    have h1 := congrArg Prod.fst h
                    simp at h1
                  | none =>
                    exfalso
                    rw [List.any_eq_true] at hany
                    obtain ⟨r, hr2, hpr⟩ := hany
                    have hfind : ∃ r₀, store.records.find? (fun r => r._id = object_id) = some r₀ := by
                      cases hff : store.records.find? (fun r => r._id = object_id) with
                      | some r₀ => exact ⟨r₀, rfl⟩
                      | none =>
                        rw [List.find?_eq_none] at hff
                        exact absurd hpr (hff r hr2)
                    obtain ⟨r₀, hr₀⟩ := hfind
                    have h3 := find?_updateOneById
                      (setFields_id (strip msg) parsed_start pe) hr₀
                    rw [show (updatedStore store object_id (strip msg) parsed_start pe).records =
                      updateOneById store.records object_id
                        (setFields (strip msg) parsed_start pe) from rfl] at hf
                    rw [h3] at hf
                    exact absurd hf (by simp)
                · rw [if_neg hany] at h
                  have hall : ∀ r ∈ store.records, r._id ≠ object_id := by
                    intro r hr2 hid
                    exact hany (List.any_eq_true.mpr ⟨r, hr2, by simp [hid]⟩)
                  have hst : updatedStore store object_id (strip msg) parsed_start pe = store := by
                    unfold updatedStore
                    rw [updateOneById_no_match hall]
                  exact ((congrArg Prod.snd h).symm).trans hst

theorem delete_error_unchanged {teachers : List String} {store : Store}
    {aid : String} {u : Option String} {e : HTTPError} {st2 : Store}
    (h : delete_announcement teachers store aid u = (.error e, st2)) :
    st2 = store := by
  unfold delete_announcement at h
  cases hv : _validate_teacher teachers u with
  | error e2 =>
    simp only [hv] at h
    exact (congrArg Prod.snd h).symm
  | ok t =>
    simp only [hv] at h
    cases ho : parseObjectId aid with
    | none =>
      simp only [ho] at h
      exact (congrArg Prod.snd h).symm
    | some object_id =>
      simp only [ho] at h
      by_cases hany : store.records.any (fun r => r._id = object_id) = true
      · rw [if_pos hany] at h
        have h1 := congrArg Prod.fst h
        simp at h1
      · rw [if_neg hany] at h
        have hall : ∀ r ∈ store.records, ¬ (decide (r._id = object_id) = true) := by
          intro r hr2 hid
          exact hany (List.any_eq_true.mpr ⟨r, hr2, hid⟩)
        have hst : erasedStore store object_id = store := by
          unfold erasedStore
          rw [List.eraseP_of_forall_not hall]
        exact ((congrArg Prod.snd h).symm).trans hst

/-- C3: every mutating operation is atomic: whenever create, update or delete
returns an error, the store after the request equals the store before it. -/
theorem C3_atomicity :
    ∀ teachers store aid msg expd sd u e st2,
      (create_announcement teachers store msg expd sd u = (.error e, st2) → st2 = store) ∧
      (update_announcement teachers store aid msg expd sd u = (.error e, st2) → st2 = store) ∧
      (delete_announcement teachers store aid u = (.error e, st2) → st2 = store) := by
  intro teachers store aid msg expd sd u e st2
  exact ⟨fun h => create_error_unchanged h, fun h => update_error_unchanged h,
    fun h => delete_error_unchanged h⟩

/-! ### Success inversion for create -/

theorem parse_ok_none_iff2 {ds : Option String} {label : String} {ps : Option Date}
    (h : _parse_date_or_none ds label = .ok ps) :
    ps = none ↔ ds = none ∨ ds = some "" := by
  constructor
  · intro hn
    subst hn
    exact (parse_ok_none_iff ds label).mp h
  · intro hd
    have h2 := (parse_ok_none_iff ds label).mpr hd
    rw [h] at h2
    injection h2 with h2

theorem create_ok_inv {teachers : List String} {store : Store}
    {msg expd : String} {sd u : Option String} {ser : SerializedAnnouncement} {st2 : Store}
    (h : create_announcement teachers store msg expd sd u = (.ok ser, st2)) :
    ∃ t parsed_start pe created,
      _validate_teacher teachers u = .ok t ∧
      strip msg ≠ "" ∧
      _parse_date_or_none sd "start_date" = .ok parsed_start ∧
      _parse_date_or_none (some expd) "expiration_date" = .ok (some pe) ∧
      startAfterEnd parsed_start pe = false ∧
      (insertedStore store (strip msg) parsed_start pe).records.find?
        (fun r => r._id = store.nextId) = some created ∧
      ser = _serialize_announcement created ∧
      st2 = insertedStore store (strip msg) parsed_start pe := by
  unfold create_announcement at h
  cases hv : _validate_teacher teachers u with
  | error e2 =>
    simp only [hv] at h
    have h1 := congrArg Prod.fst h
    simp at h1
  | ok t =>
    simp only [hv] at h
    by_cases hm : strip msg = ""
    · rw [if_pos hm] at h
      have h1 := congrArg Prod.fst h
      simp at h1
    · rw [if_neg hm] at h
      cases hps : _parse_date_or_none sd "start_date" with
      | error e2 =>
        simp only [hps] at h
        have h1 := congrArg Prod.fst h
        simp at h1
      | ok parsed_start =>
        simp only [hps] at h
        cases hpe : _parse_date_or_none (some expd) "expiration_date" with
        | error e2 =>
          simp only [hpe] at h
          have h1 := congrArg Prod.fst h
          simp at h1
        | ok popt =>
          cases popt with
          | none =>
            simp only [hpe] at h
            have h1 := congrArg Prod.fst h
            simp at h1
          | some pe =>
            simp only [hpe] at h
            by_cases hr : startAfterEnd parsed_start pe = true
            · rw [if_pos hr] at h
              have h1 := congrArg Prod.fst h
              simp at h1
            · rw [if_neg hr] at h
              cases hf : (insertedStore store (strip msg) parsed_start pe).records.find?
                  (fun r => r._id = store.nextId) with
              | none =>
                simp only [hf] at h
                have h1 := congrArg Prod.fst h
                simp at h1
              | some created =>
                simp only [hf] at h
                have h1 := congrArg Prod.fst h
                have h2 := congrArg Prod.snd h
                simp only [Prod.fst] at h1
                simp only [Prod.snd] at h2
                injection h1 with h1
                exact ⟨t, parsed_start, pe, created, rfl, hm, rfl, rfl,
                  Bool.eq_false_iff.mpr hr, hf, h1.symm, h2.symm⟩

/-- C2: a successful create echoes the request: the returned object's
`expiration_date` equals the supplied string and its `start_date` is `null`
exactly when no (or an empty) start date was supplied. -/
theorem C2_create_response (teachers : List String) (store : Store)
    (msg expd : String) (sd u : Option String) (ser : SerializedAnnouncement) (st2 : Store)
    (hfresh : ∀ r ∈ store.records, r._id ≠ store.nextId)
    (h : create_announcement teachers store msg expd sd u = (.ok ser, st2)) :
    ser.expiration_date = expd ∧ (ser.start_date = none ↔ sd = none ∨ sd = some "") := by
  obtain ⟨t, ps, pe, created, hv, hm, hps, hpe, hr, hf, hser, hst⟩ := create_ok_inv h
  have hnone : store.records.find? (fun r => r._id = store.nextId) = none := by
    rw [List.find?_eq_none]
    intro x hx
    simpa using hfresh x hx
  rw [show (insertedStore store (strip msg) ps pe).records =
    store.records ++ [newDoc store (strip msg) ps pe] from rfl] at hf
  rw [List.find?_append, hnone] at hf
  rw [List.find?_cons_of_pos _ (by simp [newDoc])] at hf
  simp only [Option.none_or] at hf
  injection hf with hf
  subst hf
  subst hser
  constructor
  · obtain ⟨s2, hs2, hne, hp⟩ := parse_ok_some_inv hpe
    injection hs2 with hs2
    subst hs2
    exact parseIsoDate_isoformat hp
  · have hiff := parse_ok_none_iff2 hps
    constructor
    · intro hsn
      have hpsn : ps = none := by
        cases hcase : ps with
        | none => rfl
        | some d =>
          rw [hcase] at hsn
          exact absurd hsn (by simp [_serialize_announcement, newDoc])
      exact hiff.mp hpsn
    · intro hd
      have hpsn := hiff.mpr hd
      subst hpsn
      rfl

/-- C2 witness: the concrete create of the specification scenario. -/
theorem C2_create_response_witness :
    (⟨"000000000000000000000000", "Exam Friday", none, "2025-06-01"⟩ :
        SerializedAnnouncement).expiration_date = "2025-06-01" ∧
      ((⟨"000000000000000000000000", "Exam Friday", none, "2025-06-01"⟩ :
        SerializedAnnouncement).start_date = none ↔
        (none : Option String) = none ∨ (none : Option String) = some "") :=
  C2_create_response ["t"] ⟨[], 0⟩ "Exam Friday" "2025-06-01" none (some "t")
    ⟨"000000000000000000000000", "Exam Friday", none, "2025-06-01"⟩
    ⟨[⟨0, "Exam Friday", none, "2025-06-01"⟩], 1⟩ (by simp) rfl

/-! ### Success inversion for update -/

theorem update_ok_inv {teachers : List String} {store : Store}
    {aid msg expd : String} {sd u : Option String} {ser : SerializedAnnouncement} {st2 : Store}
    (h : update_announcement teachers store aid msg expd sd u = (.ok ser, st2)) :
    ∃ t parsed_start pe object_id updated,
      _validate_teacher teachers u = .ok t ∧
      strip msg ≠ "" ∧
      _parse_date_or_none sd "start_date" = .ok parsed_start ∧
      _parse_date_or_none (some expd) "expiration_date" = .ok (some pe) ∧
      startAfterEnd parsed_start pe = false ∧
      parseObjectId aid = some object_id ∧
      store.records.any (fun r => r._id = object_id) = true ∧
      (updatedStore store object_id (strip msg) parsed_start pe).records.find?
        (fun r => r._id = object_id) = some updated ∧
      ser = _serialize_announcement updated ∧
      st2 = updatedStore store object_id (strip msg) parsed_start pe := by
  unfold update_announcement at h
  cases hv : _validate_teacher teachers u with
  | error e2 =>
    simp only [hv] at h
    have h1 := congrArg Prod.fst h
    simp at h1
  | ok t =>
    simp only [hv] at h
    by_cases hm : strip msg = ""
    · rw [if_pos hm] at h
      have h1 := congrArg Prod.fst h
      simp at h1
    · rw [if_neg hm] at h
      cases hps : _parse_date_or_none sd "start_date" with
      | error e2 =>
        simp only [hps] at h
        have h1 := congrArg Prod.fst h
        simp at h1
      | ok parsed_start =>
        simp only [hps] at h
        cases hpe : _parse_date_or_none (some expd) "expiration_date" with
        | error e2 =>
          simp only [hpe] at h
          have h1 := congrArg Prod.fst h
          simp at h1
        | ok popt =>
          cases popt with
          | none =>
            simp only [hpe] at h
            have h1 := congrArg Prod.fst h
            simp at h1
          | some pe =>
            simp only [hpe] at h
            by_cases hr : startAfterEnd parsed_start pe = true
            · rw [if_pos hr] at h
              have h1 := congrArg Prod.fst h
              simp at h1
            · rw [if_neg hr] at h
              cases ho : parseObjectId aid with
              | none =>
                simp only [ho] at h
                have h1 := congrArg Prod.fst h
                simp at h1
              | some object_id =>
                simp only [ho] at h
                by_cases hany : store.records.any (fun r => r._id = object_id) = true
                · rw [if_pos hany] at h
                  cases hf : (updatedStore store object_id (strip msg) parsed_start
                      pe).records.find? (fun r => r._id = object_id) with
                  | none =>
                    simp only [hf] at h
                    have h1 := congrArg Prod.fst h
                    simp at h1
                  | some updated =>
                    simp only [hf] at h
                    have h1 := congrArg Prod.fst h
                    have h2 := congrArg Prod.snd h
                    simp only [Prod.fst] at h1
                    simp only [Prod.snd] at h2
                    injection h1 with h1
                    exact ⟨t, parsed_start, pe, object_id, updated, rfl, hm, rfl, rfl,
                      Bool.eq_false_iff.mpr hr, rfl, hany, hf, h1.symm, h2.symm⟩
                · rw [if_neg hany] at h
                  have h1 := congrArg Prod.fst h
                  simp at h1

/-- C7: a successful update overwrites exactly the matched record with the
validated inputs, keeps its identifier, and leaves every other record
unchanged. -/
theorem C7_update_frame (teachers : List String) (store : Store)
    (aid msg expd : String) (sd u : Option String) (ser : SerializedAnnouncement)
    (st2 : Store)
    (hnd : (store.records.map fun r => r._id).Nodup)
    (h : update_announcement teachers store aid msg expd sd u = (.ok ser, st2)) :
    ∃ oid ps pe,
      parseObjectId aid = some oid ∧
      _parse_date_or_none sd "start_date" = .ok ps ∧
      _parse_date_or_none (some expd) "expiration_date" = .ok (some pe) ∧
      st2.records.length = store.records.length ∧
      ∀ i r₀ r, store.records.get? i = some r₀ → st2.records.get? i = some r →
        (r._id = r₀._id) ∧
        (r₀._id = oid → r.message = strip msg ∧ r.start_date = ps.map Date.isoformat ∧
          r.expiration_date = pe.isoformat) ∧
        (r₀._id ≠ oid → r = r₀) := by
  obtain ⟨t, ps, pe, oid, updated, hv, hm, hps, hpe, hr, ho, hany, hf, hser, hst⟩ :=
    update_ok_inv h
  subst hst
  have hrec : (updatedStore store oid (strip msg) ps pe).records =
      store.records.map fun r => if r._id = oid then setFields (strip msg) ps pe r else r := by
    show updateOneById store.records oid (setFields (strip msg) ps pe) = _
    exact updateOneById_eq_map hnd
  refine ⟨oid, ps, pe, ho, hps, hpe, by rw [hrec, List.length_map], ?_⟩
  intro i r₀ r h₀ h₂
  rw [hrec, List.get?_map, h₀] at h₂
  injection h₂ with h₂
  subst h₂
  beta_reduce
  split
  case isTrue hid => exact ⟨rfl, fun _ => ⟨rfl, rfl, rfl⟩, fun hne => absurd hid hne⟩
  case isFalse hid => exact ⟨rfl, fun he => absurd he hid, fun _ => rfl⟩

/-- C7 witness: a concrete successful update of the first of two records. -/
theorem C7_update_frame_witness :
    ∃ oid ps pe,
      parseObjectId "000000000000000000000000" = some oid ∧
      _parse_date_or_none none "start_date" = .ok ps ∧
      _parse_date_or_none (some "2025-02-02") "expiration_date" = .ok (some pe) ∧
      (⟨[⟨0, "b2", none, "2025-02-02"⟩, ⟨1, "b", none, "2025-03-03"⟩], 2⟩ : Store).records.length =
        (⟨[⟨0, "a", none, "2025-01-01"⟩, ⟨1, "b", none, "2025-03-03"⟩], 2⟩ : Store).records.length ∧
      ∀ i r₀ r,
        (⟨[⟨0, "a", none, "2025-01-01"⟩, ⟨1, "b", none, "2025-03-03"⟩], 2⟩ : Store).records.get? i =
          some r₀ →
        (⟨[⟨0, "b2", none, "2025-02-02"⟩, ⟨1, "b", none, "2025-03-03"⟩], 2⟩ : Store).records.get? i =
          some r →
        (r._id = r₀._id) ∧
        (r₀._id = oid → r.message = strip "b2" ∧ r.start_date = ps.map Date.isoformat ∧
          r.expiration_date = pe.isoformat) ∧
        (r₀._id ≠ oid → r = r₀) :=
  C7_update_frame ["t"] ⟨[⟨0, "a", none, "2025-01-01"⟩, ⟨1, "b", none, "2025-03-03"⟩], 2⟩
    "000000000000000000000000" "b2" "2025-02-02" none (some "t")
    ⟨"000000000000000000000000", "b2", none, "2025-02-02"⟩
    ⟨[⟨0, "b2", none, "2025-02-02"⟩, ⟨1, "b", none, "2025-03-03"⟩], 2⟩
    (by decide) rfl

/-- C9: every record written by create or update stores `start_date` as
either `null` or a canonical ISO rendering, never an empty string, even
though the active filter accepts an empty-string `start_date`. -/
theorem C9_canonical_start (teachers : List String) (store : Store)
    (aid msg expd : String) (sd u : Option String) (ser : SerializedAnnouncement)
    (st2 : Store) :
    (create_announcement teachers store msg expd sd u = (.ok ser, st2) →
      ∀ r ∈ st2.records, r ∉ store.records →
        r.start_date = none ∨ ∃ d : Date, r.start_date = some (Date.isoformat d)) ∧
    (update_announcement teachers store aid msg expd sd u = (.ok ser, st2) →
      ∀ r ∈ st2.records, r ∉ store.records →
        r.start_date = none ∨ ∃ d : Date, r.start_date = some (Date.isoformat d)) ∧
    (∀ d : Date, d.isoformat ≠ "") ∧
    (∀ (today : String) (a : AnnouncementDoc), a.start_date = some "" →
      decide (today ≤ a.expiration_date) = true → matchesActive today a = true) := by
  refine ⟨?_, ?_, isoformat_ne_empty, ?_⟩
  · intro h r hr hnot
    obtain ⟨t, ps, pe, created, hv, hm, hps, hpe, hrg, hf, hser, hst⟩ := create_ok_inv h
    subst hst
    rcases List.mem_append.mp hr with hmem | hmem
    · exact absurd hmem hnot
    · have he : r = newDoc store (strip msg) ps pe := List.mem_singleton.mp hmem
      subst he
      cases ps with
      | none => exact Or.inl rfl
      | some d => exact Or.inr ⟨d, rfl⟩
  · intro h r hr hnot
    obtain ⟨t, ps, pe, oid, updated, hv, hm, hps, hpe, hrg, ho, hany, hf, hser, hst⟩ :=
      update_ok_inv h
    subst hst
    rcases mem_updateOneById hr with hmem | ⟨r₀, hr₀, he⟩
    · exact absurd hmem hnot
    · subst he
      cases ps with
      | none => exact Or.inl rfl
      | some d => exact Or.inr ⟨d, rfl⟩
  · intro today a ha hle
    unfold matchesActive
    rw [ha, hle]
    simp

/-! ### Erasure keeps no record with the deleted id (unique ids) -/

theorem eraseP_id_complete {l : List AnnouncementDoc} {oid : Nat}
    (hnd : (l.map fun r => r._id).Nodup) {a : AnnouncementDoc} (ha : a ∈ l)
    (haid : a._id = oid) :
    ∀ r ∈ l.eraseP (fun x => x._id = oid), r._id ≠ oid := by
  obtain ⟨b, l₁, l₂, hnb, hpb, hdecomp, herase⟩ := @List.exists_of_eraseP AnnouncementDoc (fun x => decide (x._id = oid)) l a ha (decide_eq_true haid)
  rw [herase]
  intro r hr hrid
  rw [hdecomp] at hnd
  simp only [List.map_append, List.map_cons] at hnd
  rw [List.nodup_append] at hnd
  obtain ⟨hn1, hn2, hdisj⟩ := hnd
  have hbid : b._id = oid := by simpa using hpb
  have hrmem : r._id ∈ (l₁.map fun x => x._id) ∨ r._id ∈ (l₂.map fun x => x._id) := by
    rcases List.mem_append.mp hr with hm | hm
    · exact Or.inl (List.mem_map.mpr ⟨r, hm, rfl⟩)
    · exact Or.inr (List.mem_map.mpr ⟨r, hm, rfl⟩)
  rcases hrmem with hm | hm
  · exact hdisj (hrid.trans hbid.symm ▸ hm) (List.mem_cons_self _ _)
  · have hb2 : b._id ∉ (l₂.map fun x => x._id) := (List.nodup_cons.mp hn2).1
    exact hb2 (hrid.trans hbid.symm ▸ hm)

/-- C8: with a valid teacher and a well-formed identifier, delete 404s
exactly when no record matches; on success it returns the confirmation
object, removes that single record, and no subsequent read returns the
deleted identifier. -/
theorem C8_delete (teachers : List String) (store : Store) (aid : String)
    (u : Option String) (t : String) (oid : Nat)
    (hauth : _validate_teacher teachers u = .ok t)
    (hoid : parseObjectId aid = some oid)
    (hnd : (store.records.map fun r => r._id).Nodup)
    (hbound : ∀ r ∈ store.records, r._id < 16 ^ 24) :
    ((delete_announcement teachers store aid u).1 =
        .error ⟨404, "Announcement not found"⟩ ↔ ∀ r ∈ store.records, r._id ≠ oid) ∧
    ((∃ r ∈ store.records, r._id = oid) →
      delete_announcement teachers store aid u =
        (.ok ⟨"Announcement deleted"⟩, erasedStore store oid) ∧
      (erasedStore store oid).records.length + 1 = store.records.length ∧
      (∀ r ∈ (erasedStore store oid).records, r ∈ store.records ∧ r._id ≠ oid) ∧
      (∀ r ∈ store.records, r._id ≠ oid → r ∈ (erasedStore store oid).records) ∧
      (∀ today l, get_announcements (erasedStore store oid) today = .ok l →
        ∀ s ∈ l, s.id ≠ toHex24 oid) ∧
      (∀ l, get_all_announcements teachers (erasedStore store oid) u = .ok l →
        ∀ s ∈ l, s.id ≠ toHex24 oid)) := by
  by_cases hany : store.records.any (fun r => r._id = oid) = true
  · have hD : delete_announcement teachers store aid u =
        (.ok ⟨"Announcement deleted"⟩, erasedStore store oid) := by
      unfold delete_announcement
      simp only [hauth, hoid]
      rw [if_pos hany]
    obtain ⟨rm, hrm, hrmp⟩ := List.any_eq_true.mp hany
    have hrmid : rm._id = oid := of_decide_eq_true hrmp
    constructor
    · rw [hD]
      constructor
      · intro habs
        exact absurd habs (by simp)
      · intro hall
        exact absurd hrmid (hall rm hrm)
    · intro hex
      refine ⟨hD, ?_, ?_, ?_, ?_, ?_⟩
      · have hlen := @List.length_eraseP_of_mem AnnouncementDoc store.records rm
          (fun r => decide (r._id = oid)) hrm hrmp
        have hpos : 0 < store.records.length := List.length_pos_of_mem hrm
        show (store.records.eraseP (fun r => r._id = oid)).length + 1 = store.records.length
        omega
      · intro r hr
        exact ⟨List.mem_of_mem_eraseP hr, eraseP_id_complete hnd hrm hrmid r hr⟩
      · intro r hr hne
        exact (List.mem_eraseP_of_neg (by simpa using hne)).mpr hr
      · intro today l hl s hs
        obtain ⟨a, ha, hse⟩ := mem_get_announcements hl hs
        have haid : a._id ≠ oid := eraseP_id_complete hnd hrm hrmid a ha
        have habnd : a._id < 16 ^ 24 := hbound a (List.mem_of_mem_eraseP ha)
        have hobnd : oid < 16 ^ 24 := parseObjectId_lt hoid
        subst hse
        intro he
        exact haid (toHex24_inj habnd hobnd he)
      · intro l hl s hs
        obtain ⟨a, ha, hse⟩ := mem_get_all_announcements hl hs
        have haid : a._id ≠ oid := eraseP_id_complete hnd hrm hrmid a ha
        have habnd : a._id < 16 ^ 24 := hbound a (List.mem_of_mem_eraseP ha)
        have hobnd : oid < 16 ^ 24 := parseObjectId_lt hoid
        subst hse
        intro he
        exact haid (toHex24_inj habnd hobnd he)
  · have hD : delete_announcement teachers store aid u =
        (.error ⟨404, "Announcement not found"⟩, erasedStore store oid) := by
      unfold delete_announcement
      simp only [hauth, hoid]
      rw [if_neg hany]
    constructor
    · rw [hD]
      constructor
      · intro _ r hr hid
        exact hany (List.any_eq_true.mpr ⟨r, hr, decide_eq_true hid⟩)
      · intro _
        rfl
    · intro hex
      exfalso
      obtain ⟨r, hr, hid⟩ := hex
      exact hany (List.any_eq_true.mpr ⟨r, hr, decide_eq_true hid⟩)

/-- C8 witness: deleting the only record of a one-record store. -/
theorem C8_delete_witness :
    ((delete_announcement ["t"] ⟨[⟨0, "a", none, "2025-01-01"⟩], 1⟩
        "000000000000000000000000" (some "t")).1 =
        .error ⟨404, "Announcement not found"⟩ ↔
      ∀ r ∈ (⟨[⟨0, "a", none, "2025-01-01"⟩], 1⟩ : Store).records, r._id ≠ 0) ∧
    ((∃ r ∈ (⟨[⟨0, "a", none, "2025-01-01"⟩], 1⟩ : Store).records, r._id = 0) →
      delete_announcement ["t"] ⟨[⟨0, "a", none, "2025-01-01"⟩], 1⟩
        "000000000000000000000000" (some "t") =
        (.ok ⟨"Announcement deleted"⟩,
          erasedStore ⟨[⟨0, "a", none, "2025-01-01"⟩], 1⟩ 0) ∧
      (erasedStore ⟨[⟨0, "a", none, "2025-01-01"⟩], 1⟩ 0).records.length + 1 =
        (⟨[⟨0, "a", none, "2025-01-01"⟩], 1⟩ : Store).records.length ∧
      (∀ r ∈ (erasedStore ⟨[⟨0, "a", none, "2025-01-01"⟩], 1⟩ 0).records,
        r ∈ (⟨[⟨0, "a", none, "2025-01-01"⟩], 1⟩ : Store).records ∧ r._id ≠ 0) ∧
      (∀ r ∈ (⟨[⟨0, "a", none, "2025-01-01"⟩], 1⟩ : Store).records, r._id ≠ 0 →
        r ∈ (erasedStore ⟨[⟨0, "a", none, "2025-01-01"⟩], 1⟩ 0).records) ∧
      (∀ today l, get_announcements (erasedStore ⟨[⟨0, "a", none, "2025-01-01"⟩], 1⟩ 0)
          today = .ok l → ∀ s ∈ l, s.id ≠ toHex24 0) ∧
      (∀ l, get_all_announcements ["t"]
          (erasedStore ⟨[⟨0, "a", none, "2025-01-01"⟩], 1⟩ 0) (some "t") = .ok l →
        ∀ s ∈ l, s.id ≠ toHex24 0)) :=
  C8_delete ["t"] ⟨[⟨0, "a", none, "2025-01-01"⟩], 1⟩ "000000000000000000000000"
    (some "t") "t" 0 rfl rfl (by decide) (by decide)
